import Mathlib

/-!
Shallow embedding of the configuration-composition model of the
StimulCross/configs repository.

The repository's packages (`packages/eslint-config-typescript/index.mjs`,
`packages/eslint-config-node/style.mjs`, the flat-config entry point and the
legacy `.eslintrc.js`) are static configuration layers: tables from
rule identifier to severity-or-`[severity, options]`, plus `plugins`,
`settings` and `languageOptions` mappings, combined by object spread and
file-glob-scoped override entries.  The composition, glob matching and
ignore-list resolution are performed by the host linting tool, not by code
under `src/`; they are modelled here from the specification (`spec.md`
sections 3, 4.1, 7 and 8), while the rule data used by the data-level
theorems is transcribed from the repository's own tables.
-/

namespace Configs

/-- Severity level of a rule: `off`, `warn` or `error`
(spec section 3, `RuleSetting`). -/
inductive Severity where
  | off : Severity
  | warn : Severity
  | error : Severity
deriving DecidableEq, Repr

/-- An opaque structured option payload (tagged union of
null/bool/number/string/array/map, spec section 9): the composer never
interprets it. -/
inductive OptValue where
  | null : OptValue
  | bool (b : Bool) : OptValue
  | num (n : Int) : OptValue
  | str (s : String) : OptValue
  | arr (xs : List OptValue) : OptValue
  | map (kvs : List (String × OptValue)) : OptValue

/-- A rule setting: a bare severity, or a severity with an options payload
(spec section 3: `Off`, `Warn`, `Error`, or `(Level, OptionsPayload)`). -/
inductive RuleSetting where
  | plain (lvl : Severity) : RuleSetting
  | withOptions (lvl : Severity) (opts : List OptValue) : RuleSetting

/-- The severity carried by a rule setting. -/
def RuleSetting.level : RuleSetting → Severity
  | .plain l => l
  | .withOptions l _ => l

/-- A rule setting is enabled when its severity is `warn` or `error`. -/
def RuleSetting.enabled (s : RuleSetting) : Bool :=
  match s.level with
  | .off => false
  | .warn => true
  | .error => true

/-- The `languageOptions` of a layer (spec section 3: an opaque mapping —
parser, globals, source-type — merged shallowly, later layers win, except
`globals`, which is unioned key-by-key). The `parser` and `globals` keys
are singled out because the composition model treats them specially
(parser-conflict detection, additive global union); every other top-level
key lives in `entries`. -/
structure LangOptions where
  parser : Option String
  globals : List (String × Bool)
  entries : List (String × OptValue)

/-- A configuration layer (spec section 3, `ConfigLayer`): a mapping from
rule identifier to `RuleSetting`, plus `plugins`, `settings` and
`languageOptions`. Mappings are association lists in declaration order,
mirroring the JavaScript object literals of the source packages. -/
structure ConfigLayer where
  rules : List (String × RuleSetting)
  plugins : List String
  settings : List (String × OptValue)
  languageOptions : LangOptions

/-- An override block (spec section 3, `OverrideBlock`): a set of file-glob
patterns and a partial rule mapping, applied only to files whose path
matches at least one pattern. This is the shape of the `overrides` entries
of `packages/eslint-config-typescript/index.js` and of the `files`-scoped
entries of the flat-config entry point. -/
structure OverrideBlock where
  patterns : List String
  rules : List (String × RuleSetting)

/-- The result of composition for one file path (spec section 3,
`EffectiveConfig`). -/
structure EffectiveConfig where
  rules : List (String × RuleSetting)
  plugins : List String
  settings : List (String × OptValue)
  languageOptions : LangOptions

/-! ### Association-list operations

JavaScript object literals bind each key at most once; spread-merging
(`{...a, ...b}`) overwrites a key's value in place or appends a fresh
binding. `setKey`/`mergeAssoc` reproduce exactly that. -/

/-- First-match lookup in an association list. -/
def lookupKey {α : Type} : List (String × α) → String → Option α
  | [], _ => none
  | (k', v) :: rest, k => if k' = k then some v else lookupKey rest k

/-- Set a key to a value: overwrite an existing binding of the key in
place, or append a fresh binding when the key is absent (JavaScript
object-spread update). -/
def setKey {α : Type} : List (String × α) → String → α → List (String × α)
  | [], k, v => [(k, v)]
  | (k', v') :: rest, k, v =>
    if k' = k then (k, v) :: setKey rest k v else (k', v') :: setKey rest k v

/-- Merge a layer's mapping into the accumulated mapping: for each binding
of the layer, in order, unconditionally overwrite the accumulated value
(spec section 4.1, steps 2a and 2c: last write wins). -/
def mergeAssoc {α : Type} (acc layer : List (String × α)) :
    List (String × α) :=
  layer.foldl (fun a kv => setKey a kv.1 kv.2) acc

/-- The value of the last binding of a key in an association list: the
value that `mergeAssoc` leaves behind for that key. -/
def lastVal {α : Type} (m : List (String × α)) (k : String) : Option α :=
  lookupKey m.reverse k

/-! ### Glob matching

Modelled from the spec: the repository contains no glob matcher (the spec's
section 6 names it an external collaborator of the host linting tool); the
matcher below implements the pattern semantics of spec section 4.1 — `*`
matches any run of characters except the path separator, `**` matches
across path separators, `?` matches one character, character classes
`[...]`, brace alternation, and anchoring where a pattern with no leading
`/` or `**/` is evaluated relative to the composition root while patterns
starting with `**/` match at any depth. -/

/-- Tokens of a parsed glob pattern. -/
inductive GTok where
  | lit (c : Char) : GTok
  | one : GTok
  | star : GTok
  | anyrun : GTok
  | globstar : GTok
  | cls (ranges : List (Char × Char)) : GTok
deriving DecidableEq, Repr

/-- Membership of a character in a character class (a list of inclusive
ranges; a single character `c` is the range `(c, c)`). -/
def inClass (ranges : List (Char × Char)) (c : Char) : Bool :=
  ranges.any (fun r => r.1 ≤ c && c ≤ r.2)

/-- Parse a glob pattern into tokens: `**/` steps over whole directory
segments, a bare `**` matches any run including separators, `*` and `?`
stay within one segment, `[...]` is a character class (an unmatched `[`
is literal). The first argument is `some acc` while inside a `[...]`
class whose ranges so far are accumulated (reversed) in `acc`, and `none`
otherwise. -/
def parsePatAux : Option (List (Char × Char)) → List Char → List GTok
  | none, [] => []
  | none, '*' :: '*' :: '/' :: rest => .globstar :: parsePatAux none rest
  | none, '*' :: '*' :: rest => .anyrun :: parsePatAux none rest
  | none, '*' :: rest => .star :: parsePatAux none rest
  | none, '?' :: rest => .one :: parsePatAux none rest
  | none, '[' :: rest =>
    if rest.contains ']' then parsePatAux (some []) rest
    else .lit '[' :: parsePatAux none rest
  | none, c :: rest => .lit c :: parsePatAux none rest
  | some acc, [] => [.cls acc.reverse]
  | some acc, ']' :: rest => .cls acc.reverse :: parsePatAux none rest
  | some acc, a :: '-' :: b :: rest => parsePatAux (some ((a, b) :: acc)) rest
  | some acc, a :: rest => parsePatAux (some ((a, a) :: acc)) rest

/-- Parse a glob pattern into tokens. -/
def parsePat (p : List Char) : List GTok := parsePatAux none p

/-- The suffixes of a path reachable by deleting a run of
non-separator characters from the front: the positions where matching may
resume after a `*`. -/
def segTails : List Char → List (List Char)
  | [] => [[]]
  | c :: sr => (c :: sr) :: (if c = '/' then [] else segTails sr)

/-- The suffixes of a path that start immediately after a separator: the
positions where matching may resume after `**/` has stepped over one or
more whole directory segments. -/
def afterSlashSuffixes : List Char → List (List Char)
  | [] => []
  | c :: sr =>
    if c = '/' then sr :: afterSlashSuffixes sr else afterSlashSuffixes sr

/-- Match a token list against a path (as a character list):
`lit`/`one`/`cls` consume one character (`one` never consumes the
separator), `*` consumes any run within a segment, `**` any run at all,
and `**/` zero or more whole directory segments. -/
def tmatch : List GTok → List Char → Bool
  | [], s => s.isEmpty
  | .lit c :: pr, s =>
    match s with
    | d :: sr => c == d && tmatch pr sr
    | [] => false
  | .one :: pr, s =>
    match s with
    | d :: sr => d != '/' && tmatch pr sr
    | [] => false
  | .cls rs :: pr, s =>
    match s with
    | d :: sr => inClass rs d && tmatch pr sr
    | [] => false
  | .star :: pr, s => (segTails s).any (fun t => tmatch pr t)
  | .anyrun :: pr, s => s.tails.any (fun t => tmatch pr t)
  | .globstar :: pr, s =>
    tmatch pr s || (afterSlashSuffixes s).any (fun t => tmatch pr t)

/-- Split a brace-alternation body on commas. -/
def splitAlts : List Char → List (List Char)
  | [] => [[]]
  | ',' :: rest => [] :: splitAlts rest
  | c :: rest =>
    match splitAlts rest with
    | [] => [[c]]
    | a :: as => (c :: a) :: as

/-- Expand brace alternation: every `\x7b a , b \x7d` group (written here
with its braces escaped) multiplies the pattern into one alternative per
listed branch; a brace with no closing partner is kept literally. Groups
are not nested in this model, matching the repository's patterns. The
first argument is `some acc` while inside a brace group whose body so far
is accumulated (reversed) in `acc`, and `none` otherwise. -/
def expandAux : Option (List Char) → List Char → List (List Char)
  | none, [] => [[]]
  | none, '\x7b' :: rest =>
    if rest.contains '\x7d' then expandAux (some []) rest
    else (expandAux none rest).map (fun t => '\x7b' :: t)
  | none, c :: rest => (expandAux none rest).map (fun t => c :: t)
  | some acc, [] => [acc.reverse]
  | some acc, '\x7d' :: rest =>
    (splitAlts acc.reverse).foldr
      (fun alt r => (expandAux none rest).map (fun t => alt ++ t) ++ r) []
  | some acc, c :: rest => expandAux (some (c :: acc)) rest

/-- Expand the brace-alternation groups of a pattern. -/
def expandBraces (p : List Char) : List (List Char) := expandAux none p

/-- The glob-match predicate `matches(pattern, path)` of spec sections 4.1
and 6 (`matches` is a reserved word in Lean, hence the name): expand
braces, strip a leading `/` (both an explicitly `/`-anchored pattern and
an unanchored one are evaluated relative to the composition root), and
accept when any expanded alternative matches the whole path. -/
def globMatchChars (pattern path : List Char) : Bool :=
  let p :=
    match pattern with
    | '/' :: rest => rest
    | other => other
  (expandBraces p).any (fun q => tmatch (parsePat q) path)

/-- The predicate `matches(pattern, path)` on strings. -/
def globMatch (pattern path : String) : Bool :=
  globMatchChars pattern.data path.data

/-! ### Ignore-list resolution

Modelled from the spec: the ignore lists (`ignorePatterns` of
`.eslintrc.js` and `ignores` of the flat-config entry point) are resolved
by the host linting tool, not by code under `src/`. Spec sections 4.1 and
8: a path is ignored iff the last pattern, in listed order, that matches
it at all is not `!`-prefixed; a `!`-pattern that matches un-ignores. The
spec's own scenarios (`node_modules` ignoring `node_modules/pkg/index.js`,
`!.*.js` re-including `node_modules/.bar.js`) require gitignore-style
matching for the per-pattern test: a pattern containing no `/` applies to
every path segment — matching a directory segment ignores everything
beneath it, and a basename pattern applies at any depth. -/

/-- The path split at separators into its directory and file segments. -/
def segmentsOf : List Char → List (List Char)
  | [] => [[]]
  | '/' :: rest => [] :: segmentsOf rest
  | c :: rest =>
    match segmentsOf rest with
    | [] => [[c]]
    | a :: as => (c :: a) :: as

/-- Whether one ignore pattern (already stripped of any `!` prefix)
matches a path: a pattern with a separator is matched against the whole
path from the root; a pattern without one is matched against each path
segment (gitignore-style). -/
def ignoreMatches (pattern path : List Char) : Bool :=
  if pattern.contains '/' then globMatchChars pattern path
  else (segmentsOf path).any
    (fun seg => (expandBraces pattern).any (fun q => tmatch (parsePat q) seg))

/-- The glob part of an ignore pattern: everything after a leading `!`. -/
def corePat (p : String) : List Char :=
  match p.data with
  | '!' :: rest => rest
  | other => other

/-- Whether an ignore pattern is a `!`-negation (re-include) pattern. -/
def isNegation (p : String) : Bool :=
  match p.data with
  | '!' :: _ => true
  | _ => false

/-- Ignore-list resolution (spec sections 4.1 and 8): walk the patterns in
listed order; a matching plain pattern marks the path ignored, a matching
`!`-pattern un-ignores it, and the last match wins. -/
def isIgnored (patterns : List String) (path : String) : Bool :=
  patterns.foldl
    (fun acc p =>
      if ignoreMatches (corePat p) path.data then !(isNegation p) else acc)
    false

/-! ### The composer

Modelled from the spec: `compose` (spec section 4.1) is the host linting
tool's layered-merge resolver; the repository only declares the layers it
consumes. Step 2 folds the layers in listed order — rules overwritten
last-write-wins, plugins unioned, `settings`/`languageOptions`
shallow-merged with `languageOptions.globals` unioned key-by-key — and
step 3 folds the override blocks in listed order, applying a block's rule
mapping whenever the file path matches any of its patterns. -/

/-- Add a plugin identifier to the accumulated set: a no-op when the
identifier is already present (spec section 4.1, step 2b). -/
def addPlugin (ps : List String) (p : String) : List String :=
  if p ∈ ps then ps else ps ++ [p]

/-- Union a layer's plugin list into the accumulated plugin set. -/
def unionPlugins (ps qs : List String) : List String :=
  qs.foldl addPlugin ps

/-- Shallow merge of `languageOptions` (spec section 4.1, step 2c): every
top-level key of the later layer overwrites the accumulated value
wholesale, except `globals`, whose mapping is unioned key-by-key with the
later entries winning. -/
def mergeLangOptions (acc layer : LangOptions) : LangOptions where
  parser :=
    match layer.parser with
    | some p => some p
    | none => acc.parser
  globals := mergeAssoc acc.globals layer.globals
  entries := mergeAssoc acc.entries layer.entries

/-- Fold one layer into the accumulated configuration
(spec section 4.1, step 2). -/
def applyLayer (acc : EffectiveConfig) (l : ConfigLayer) : EffectiveConfig where
  rules := mergeAssoc acc.rules l.rules
  plugins := unionPlugins acc.plugins l.plugins
  settings := mergeAssoc acc.settings l.settings
  languageOptions := mergeLangOptions acc.languageOptions l.languageOptions

/-- Whether an override block applies to a file path: the path matches at
least one of the block's patterns (spec section 4.1, step 3: OR semantics
across patterns within one block). -/
def blockApplies (b : OverrideBlock) (filePath : String) : Bool :=
  b.patterns.any (fun pat => globMatch pat filePath)

/-- Apply one override block (spec section 4.1, step 3): when the file
path matches, overwrite the accumulated rules with the block's partial
rule mapping; otherwise leave the configuration unchanged. -/
def applyOverride (filePath : String) (acc : EffectiveConfig)
    (b : OverrideBlock) : EffectiveConfig :=
  if blockApplies b filePath then
    { acc with rules := mergeAssoc acc.rules b.rules }
  else acc

/-- The empty accumulated configuration (spec section 4.1, step 1). -/
def emptyConfig : EffectiveConfig where
  rules := []
  plugins := []
  settings := []
  languageOptions := { parser := none, globals := [], entries := [] }

/-- The operation `compose(layers, overrides, filePath)` (spec section 4.1): fold the
layers in listed order, then the override blocks in listed order, and
return the accumulated effective configuration. -/
def compose (layers : List ConfigLayer) (overrides : List OverrideBlock)
    (filePath : String) : EffectiveConfig :=
  overrides.foldl (applyOverride filePath) (layers.foldl applyLayer emptyConfig)

/-- The composition-time error taxonomy (spec section 7): `ConfigConflict`
for mutually exclusive non-mergeable global settings. (The spec's
`PatternSyntaxError` concerns malformed patterns, which the total matcher
of this model — parsing unmatched brackets literally — never produces.) -/
inductive ComposeError where
  | configConflict : ComposeError
deriving DecidableEq, Repr

/-- Whether two layers declare different parser identifiers
(spec section 7, `ConfigConflict`). -/
def hasParserConflict (layers : List ConfigLayer) : Bool :=
  layers.any (fun l1 =>
    layers.any (fun l2 =>
      match l1.languageOptions.parser, l2.languageOptions.parser with
      | some p1, some p2 => p1 != p2
      | _, _ => false))

/-- The fallible composer entry point (spec sections 4.1 and 7): when the
host requires single-parser enforcement and two layers declare different
parser identifiers, composition aborts with `ConfigConflict` and no
partial configuration is returned; otherwise it returns the composed
configuration. -/
def composeE (enforceSingleParser : Bool) (layers : List ConfigLayer)
    (overrides : List OverrideBlock) (filePath : String) :
    Except ComposeError EffectiveConfig :=
  if enforceSingleParser && hasParserConflict layers then
    .error .configConflict
  else
    .ok (compose layers overrides filePath)

/-! ### The TypeScript layer's base-rule supersessions

Data transcribed from `packages/eslint-config-typescript/index.mjs`: the
layer's rule table is `{...base.rules, <own entries>}`, and among the own
entries every pair below disables a base ESLint rule and enables its
`@typescript-eslint` counterpart, several of which copy their severity
from `base.rules[...]` of the external base package. -/

/-- The setting `base.rules[r]` of the external base package; the base
package is not under `src/`, so its table is an arbitrary parameter, and a
rule it leaves absent is treated as unconfigured (`off`), per spec
section 3. -/
def baseSetting (baseRules : List (String × RuleSetting)) (r : String) :
    RuleSetting :=
  (lookupKey baseRules r).getD (.plain .off)

/-- The entries of the TypeScript layer's own rule table
(`packages/eslint-config-typescript/index.mjs`, inside `config.rules`
after the `...base.rules` spread) that supersede a base ESLint rule with a
`@typescript-eslint` counterpart, in source order. Entries of the table
for unrelated rule identifiers are omitted; the table binds each
identifier once, so they cannot affect the identifiers listed here. -/
def tsOwnSupersessionRules (baseRules : List (String × RuleSetting)) :
    List (String × RuleSetting) :=
  [ ("@typescript-eslint/no-array-constructor",
      baseSetting baseRules "no-array-constructor"),
    ("no-array-constructor", .plain .off),
    ("@typescript-eslint/no-dupe-class-members",
      baseSetting baseRules "no-dupe-class-members"),
    ("no-dupe-class-members", .plain .off),
    ("@typescript-eslint/no-implied-eval",
      baseSetting baseRules "no-implied-eval"),
    ("no-implied-eval", .plain .off),
    ("@typescript-eslint/no-invalid-this", .plain .error),
    ("no-invalid-this", .plain .off),
    ("@typescript-eslint/no-loop-func",
      baseSetting baseRules "no-loop-func"),
    ("no-loop-func", .plain .off),
    ("@typescript-eslint/no-loss-of-precision",
      baseSetting baseRules "no-loss-of-precision"),
    ("no-loss-of-precision", .plain .off),
    ("@typescript-eslint/no-redeclare",
      .withOptions .error [.map [("ignoreDeclarationMerge", .bool true)]]),
    ("no-redeclare", .plain .off),
    ("@typescript-eslint/no-shadow", baseSetting baseRules "no-shadow"),
    ("no-shadow", .plain .off),
    ("@typescript-eslint/only-throw-error",
      .withOptions (baseSetting baseRules "no-throw-literal").level
        [.map [("allowThrowingAny", .bool false),
               ("allowThrowingUnknown", .bool false)]]),
    ("no-throw-literal", .plain .off),
    ("@typescript-eslint/no-unused-expressions",
      baseSetting baseRules "no-unused-expressions"),
    ("no-unused-expressions", .plain .off),
    ("@typescript-eslint/no-unused-vars",
      baseSetting baseRules "no-unused-vars"),
    ("no-unused-vars", .plain .off),
    ("@typescript-eslint/no-use-before-define",
      .withOptions .error
        [.map [("functions", .bool false), ("classes", .bool false),
               ("typedefs", .bool false)]]),
    ("no-use-before-define", .plain .off),
    ("@typescript-eslint/no-useless-constructor",
      baseSetting baseRules "no-useless-constructor"),
    ("no-useless-constructor", .plain .off),
    ("@typescript-eslint/return-await", .withOptions .warn [.str "always"]),
    ("require-await", .plain .off),
    ("@typescript-eslint/no-empty-function",
      .withOptions .error [.map [("allow", .arr [.str "constructors"])]]),
    ("no-empty-function", .plain .off) ]

/-- The pairs (base ESLint rule, `@typescript-eslint` counterpart) that
the TypeScript layer supersedes
(`packages/eslint-config-typescript/index.mjs`). -/
def supersededPairs : List (String × String) :=
  [ ("no-array-constructor", "@typescript-eslint/no-array-constructor"),
    ("no-dupe-class-members", "@typescript-eslint/no-dupe-class-members"),
    ("no-implied-eval", "@typescript-eslint/no-implied-eval"),
    ("no-invalid-this", "@typescript-eslint/no-invalid-this"),
    ("no-loop-func", "@typescript-eslint/no-loop-func"),
    ("no-loss-of-precision", "@typescript-eslint/no-loss-of-precision"),
    ("no-redeclare", "@typescript-eslint/no-redeclare"),
    ("no-shadow", "@typescript-eslint/no-shadow"),
    ("no-throw-literal", "@typescript-eslint/only-throw-error"),
    ("no-unused-expressions", "@typescript-eslint/no-unused-expressions"),
    ("no-unused-vars", "@typescript-eslint/no-unused-vars"),
    ("no-use-before-define", "@typescript-eslint/no-use-before-define"),
    ("no-useless-constructor", "@typescript-eslint/no-useless-constructor"),
    ("require-await", "@typescript-eslint/return-await"),
    ("no-empty-function", "@typescript-eslint/no-empty-function") ]

/-- The TypeScript layer's composed rule table:
`{...base.rules, <own entries>}`. -/
def tsLayerRules (baseRules : List (String × RuleSetting)) :
    List (String × RuleSetting) :=
  mergeAssoc baseRules (tsOwnSupersessionRules baseRules)

/-! ### Repository glob and override data -/

/-- The `configs` glob group of `@stimulcross/eslint-config-base/globs`
(`src/unnamed/part_001`). -/
def globsConfigs : List String :=
  ["*config.*", "**/config/**", "**/configuration/**"]

/-- The `tests` glob group of `@stimulcross/eslint-config-base/globs`
(`src/unnamed/part_001`). -/
def globsTests : List String := ["test/**", "**/*.test.*", "**/*.spec.*"]

/-- The ignore list shared by `.eslintrc.js` (`ignorePatterns`) and the
flat-config entry point (`ignores`, `src/unnamed/part_000`). -/
def repoIgnorePatterns : List String := ["node_modules", "!.*.js"]

/-- The `*.d.ts`-scoped override block of
`packages/eslint-config-typescript/index.js` (`overrides[0]`). -/
def dtsOverride : OverrideBlock where
  patterns := ["*.d.ts"]
  rules := [("import/no-unused-modules", .plain .off)]

/-- The config-files-scoped override block of
`packages/eslint-config-typescript/index.js` (`overrides[1]`). -/
def configsOverride : OverrideBlock where
  patterns := globsConfigs
  rules := [("node/no-process-env", .plain .off)]

/-- The `**/*.mjs`-scoped entry of the flat-config entry point
(`src/unnamed/part_000`). -/
def mjsOverride : OverrideBlock where
  patterns := ["**/*.mjs"]
  rules :=
    [("import/no-unresolved", .plain .off),
     ("unicorn/no-process-exit", .plain .off),
     ("unicorn/no-await-expression-member", .plain .off)]

/-- A minimal layer realizing the spec's section-8 scenarios: it sets the
rule under test to `Warn`. -/
def warnLayer : ConfigLayer where
  rules := [("no-shadow", .plain .warn)]
  plugins := ["import"]
  settings := [("import/resolver", .map [("node", .map [])])]
  languageOptions :=
    { parser := none
      globals := [("console", .true)]
      entries := [] }

/-- A later layer for the same scenarios: it overrides the rule under test
to `Error` and declares a parser. -/
def errorLayer : ConfigLayer where
  rules := [("no-shadow", .plain .error)]
  plugins := ["unicorn"]
  settings := [("import/resolver", .map [("typescript", .map [])])]
  languageOptions :=
    { parser := some "@typescript-eslint/parser"
      globals := [("process", .true)]
      entries := [("sourceType", .str "module")] }

/-! ### Anchoring and depth of glob patterns -/

/-- A token that can only consume characters inside one path segment:
a literal other than the separator, `?`, `*`, or a class that excludes
the separator. -/
def segLocal : GTok → Bool
  | .lit c => c != '/'
  | .one => true
  | .star => true
  | .anyrun => false
  | .globstar => false
  | .cls rs => !inClass rs '/'

/-! ### Lemmas about association-list merging -/

theorem lookupKey_setKey_self {α : Type} (m : List (String × α))
    (k : String) (v : α) : lookupKey (setKey m k v) k = some v := by
  induction m with
  | nil => simp [setKey, lookupKey]
  | cons kv rest ih =>
    obtain ⟨k', v'⟩ := kv
    by_cases h : k' = k
    · simp [setKey, h, lookupKey]
    · simp [setKey, h, lookupKey, ih]

theorem lookupKey_setKey_other {α : Type} (m : List (String × α))
    (k k' : String) (v : α) (hne : k' ≠ k) :
    lookupKey (setKey m k' v) k = lookupKey m k := by
  induction m with
  | nil => simp [setKey, lookupKey, hne]
  | cons kv rest ih =>
    obtain ⟨k0, v0⟩ := kv
    by_cases h : k0 = k'
    · subst h
      simp [setKey, lookupKey, hne, ih]
    · by_cases h2 : k0 = k
      · simp [setKey, h, lookupKey, h2, Ne.symm hne]
      · simp [setKey, h, lookupKey, h2, ih]

theorem lookupKey_eq_none_iff {α : Type} (m : List (String × α))
    (k : String) : lookupKey m k = none ↔ ∀ p ∈ m, p.1 ≠ k := by
  induction m with
  | nil => simp [lookupKey]
  | cons kv rest ih =>
    obtain ⟨k0, v0⟩ := kv
    by_cases h : k0 = k
    · simp [lookupKey, h]
    · simp [lookupKey, h, ih]

theorem lookupKey_append {α : Type} (a b : List (String × α)) (k : String) :
    lookupKey (a ++ b) k =
      (match lookupKey a k with
       | some v => some v
       | none => lookupKey b k) := by
  induction a with
  | nil => simp [lookupKey]
  | cons kv rest ih =>
    obtain ⟨k0, v0⟩ := kv
    by_cases h : k0 = k
    · simp [lookupKey, h]
    · simp [lookupKey, h, ih]

theorem lastVal_cons {α : Type} (kv : String × α) (rest : List (String × α))
    (k : String) :
    lastVal (kv :: rest) k =
      (match lastVal rest k with
       | some w => some w
       | none => if kv.1 = k then some kv.2 else none) := by
  obtain ⟨k0, v0⟩ := kv
  simp only [lastVal, List.reverse_cons, lookupKey_append]
  cases lookupKey rest.reverse k <;> simp [lookupKey]

theorem mergeAssoc_cons {α : Type} (m : List (String × α)) (kv : String × α)
    (xs : List (String × α)) :
    mergeAssoc m (kv :: xs) = mergeAssoc (setKey m kv.1 kv.2) xs := rfl

/-- A key absent from the merged-in mapping keeps its accumulated value. -/
theorem lookupKey_mergeAssoc_absent {α : Type} (m xs : List (String × α))
    (k : String) (h : lookupKey xs k = none) :
    lookupKey (mergeAssoc m xs) k = lookupKey m k := by
  induction xs generalizing m with
  | nil => rfl
  | cons kv rest ih =>
    obtain ⟨k0, v0⟩ := kv
    rw [lookupKey_eq_none_iff] at h
    have hk0 : k0 ≠ k := h (k0, v0) (by simp)
    have hrest : lookupKey rest k = none := by
      rw [lookupKey_eq_none_iff]
      exact fun p hp => h p (by simp [hp])
    rw [mergeAssoc_cons, ih (setKey m k0 v0) hrest]
    exact lookupKey_setKey_other m k k0 v0 hk0

/-- A key bound in the merged-in mapping takes the value of its last
binding there, regardless of the accumulated mapping. -/
theorem lookupKey_mergeAssoc_lastVal {α : Type} (m xs : List (String × α))
    (k : String) (v : α) (h : lastVal xs k = some v) :
    lookupKey (mergeAssoc m xs) k = some v := by
  induction xs generalizing m with
  | nil => simp [lastVal, lookupKey] at h
  | cons kv rest ih =>
    obtain ⟨k0, v0⟩ := kv
    rw [lastVal_cons] at h
    rw [mergeAssoc_cons]
    cases hrest : lastVal rest k with
    | some w =>
      rw [hrest] at h
      simp only [Option.some.injEq] at h
      subst h
      exact ih (setKey m k0 v0) hrest
    | none =>
      rw [hrest] at h
      simp only at h
      by_cases hk : k0 = k
      · rw [if_pos hk] at h
        simp only [Option.some.injEq] at h
        subst hk
        have hnone : lookupKey rest k0 = none := by
          rw [lookupKey_eq_none_iff]
          intro p hp hpk
          have hne : lastVal rest k0 ≠ none := by
            rw [lastVal, Ne, lookupKey_eq_none_iff]
            push_neg
            exact ⟨p, by simpa using hp, hpk⟩
          exact hne hrest
        rw [lookupKey_mergeAssoc_absent _ _ _ hnone, lookupKey_setKey_self]
        exact congrArg some h
      · rw [if_neg hk] at h
        exact absurd h (by simp)

/-! ### Structural lemmas about the composer's folds -/

theorem foldl_applyLayer_rules (ls : List ConfigLayer) (acc : EffectiveConfig) :
    (ls.foldl applyLayer acc).rules =
      ls.foldl (fun r l => mergeAssoc r l.rules) acc.rules := by
  induction ls generalizing acc with
  | nil => rfl
  | cons l rest ih => exact ih (applyLayer acc l)

theorem foldl_applyLayer_plugins (ls : List ConfigLayer)
    (acc : EffectiveConfig) :
    (ls.foldl applyLayer acc).plugins =
      ls.foldl (fun ps l => unionPlugins ps l.plugins) acc.plugins := by
  induction ls generalizing acc with
  | nil => rfl
  | cons l rest ih => exact ih (applyLayer acc l)

theorem foldl_applyLayer_settings (ls : List ConfigLayer)
    (acc : EffectiveConfig) :
    (ls.foldl applyLayer acc).settings =
      ls.foldl (fun s l => mergeAssoc s l.settings) acc.settings := by
  induction ls generalizing acc with
  | nil => rfl
  | cons l rest ih => exact ih (applyLayer acc l)

theorem foldl_applyLayer_langOptions (ls : List ConfigLayer)
    (acc : EffectiveConfig) :
    (ls.foldl applyLayer acc).languageOptions =
      ls.foldl (fun lo l => mergeLangOptions lo l.languageOptions)
        acc.languageOptions := by
  induction ls generalizing acc with
  | nil => rfl
  | cons l rest ih => exact ih (applyLayer acc l)

theorem foldl_applyOverride_rules (ov : List OverrideBlock)
    (acc : EffectiveConfig) (fp : String) :
    (ov.foldl (applyOverride fp) acc).rules =
      ov.foldl
        (fun r b => if blockApplies b fp then mergeAssoc r b.rules else r)
        acc.rules := by
  induction ov generalizing acc with
  | nil => rfl
  | cons b rest ih =>
    simp only [List.foldl_cons]
    rw [ih (applyOverride fp acc b)]
    unfold applyOverride
    by_cases h : blockApplies b fp <;> simp [h]

theorem foldl_applyOverride_plugins (ov : List OverrideBlock)
    (acc : EffectiveConfig) (fp : String) :
    (ov.foldl (applyOverride fp) acc).plugins = acc.plugins := by
  induction ov generalizing acc with
  | nil => rfl
  | cons b rest ih =>
    simp only [List.foldl_cons]
    rw [ih (applyOverride fp acc b)]
    unfold applyOverride
    by_cases h : blockApplies b fp <;> simp [h]

theorem foldl_applyOverride_settings (ov : List OverrideBlock)
    (acc : EffectiveConfig) (fp : String) :
    (ov.foldl (applyOverride fp) acc).settings = acc.settings := by
  induction ov generalizing acc with
  | nil => rfl
  | cons b rest ih =>
    simp only [List.foldl_cons]
    rw [ih (applyOverride fp acc b)]
    unfold applyOverride
    by_cases h : blockApplies b fp <;> simp [h]

theorem foldl_applyOverride_langOptions (ov : List OverrideBlock)
    (acc : EffectiveConfig) (fp : String) :
    (ov.foldl (applyOverride fp) acc).languageOptions = acc.languageOptions := by
  induction ov generalizing acc with
  | nil => rfl
  | cons b rest ih =>
    simp only [List.foldl_cons]
    rw [ih (applyOverride fp acc b)]
    unfold applyOverride
    by_cases h : blockApplies b fp <;> simp [h]

/-- Layers that do not mention a rule leave its accumulated setting
unchanged. -/
theorem lookup_foldRules_absent (ls : List ConfigLayer)
    (acc : List (String × RuleSetting)) (R : String)
    (h : ∀ l ∈ ls, lookupKey l.rules R = none) :
    lookupKey (ls.foldl (fun r l => mergeAssoc r l.rules) acc) R =
      lookupKey acc R := by
  induction ls generalizing acc with
  | nil => rfl
  | cons l rest ih =>
    simp only [List.foldl_cons]
    rw [ih _ (fun l' hl' => h l' (by simp [hl']))]
    exact lookupKey_mergeAssoc_absent _ _ _ (h l (by simp))

/-- Override blocks that do not apply, or do not mention a rule, leave its
accumulated setting unchanged. -/
theorem lookup_foldOverrides_absent (ov : List OverrideBlock)
    (acc : List (String × RuleSetting)) (fp R : String)
    (h : ∀ b ∈ ov, blockApplies b fp = true → lookupKey b.rules R = none) :
    lookupKey
      (ov.foldl
        (fun r b => if blockApplies b fp then mergeAssoc r b.rules else r)
        acc) R = lookupKey acc R := by
  induction ov generalizing acc with
  | nil => rfl
  | cons b rest ih =>
    simp only [List.foldl_cons]
    rw [ih _ (fun b' hb' => h b' (by simp [hb']))]
    by_cases hb : blockApplies b fp
    · rw [if_pos hb]
      exact lookupKey_mergeAssoc_absent _ _ _ (h b (by simp) hb)
    · rw [if_neg hb]

/-! ### Plugin-union lemmas -/

theorem mem_addPlugin (ps : List String) (p q : String) :
    q ∈ addPlugin ps p ↔ q ∈ ps ∨ q = p := by
  unfold addPlugin
  by_cases h : p ∈ ps
  · simp only [if_pos h]
    constructor
    · exact Or.inl
    · rintro (hq | rfl)
      · exact hq
      · exact h
  · simp [if_neg h]

theorem mem_unionPlugins (ps qs : List String) (p : String) :
    p ∈ unionPlugins ps qs ↔ p ∈ ps ∨ p ∈ qs := by
  induction qs generalizing ps with
  | nil => simp [unionPlugins]
  | cons q rest ih =>
    simp only [unionPlugins, List.foldl_cons]
    rw [show rest.foldl addPlugin (addPlugin ps q) =
      unionPlugins (addPlugin ps q) rest from rfl, ih, mem_addPlugin]
    simp only [List.mem_cons]
    tauto

theorem unionPlugins_of_subset (ps qs : List String)
    (h : ∀ q ∈ qs, q ∈ ps) : unionPlugins ps qs = ps := by
  induction qs generalizing ps with
  | nil => rfl
  | cons q rest ih =>
    simp only [unionPlugins, List.foldl_cons]
    have hq : addPlugin ps q = ps := by
      unfold addPlugin
      rw [if_pos (h q (by simp))]
    rw [hq]
    exact ih ps (fun q' hq' => h q' (by simp [hq']))

/-- Every suffix reachable after a `*` differs from the path by a deleted
prefix that contains no separator. -/
theorem segTails_suffix (s : List Char) :
    ∀ t ∈ segTails s, ∃ pre, s = pre ++ t ∧ '/' ∉ pre := by
  induction s with
  | nil =>
    intro t ht
    simp only [segTails, List.mem_singleton] at ht
    exact ⟨[], by simp [ht]⟩
  | cons c sr ih =>
    intro t ht
    simp only [segTails, List.mem_cons] at ht
    rcases ht with rfl | ht
    · exact ⟨[], by simp⟩
    · by_cases hc : c = '/'
      · rw [if_pos hc] at ht
        simp at ht
      · rw [if_neg hc] at ht
        obtain ⟨pre, hpre, hno⟩ := ih t ht
        refine ⟨c :: pre, by simp [hpre], ?_⟩
        simp only [List.mem_cons, not_or]
        exact ⟨fun h' => hc h'.symm, hno⟩

/-- A pattern all of whose tokens are segment-local never matches a path
containing a separator: with no leading (or embedded) `/` or `**`, a
pattern is evaluated relative to the composition root and matches only
root-level paths. -/
theorem tmatch_segLocal_no_slash :
    ∀ (toks : List GTok) (s : List Char),
      (∀ t ∈ toks, segLocal t = true) → tmatch toks s = true → '/' ∉ s := by
  intro toks
  induction toks with
  | nil =>
    intro s _ hm
    simp only [tmatch, List.isEmpty_iff] at hm
    simp [hm]
  | cons t pr ih =>
    intro s hseg hm
    have hsegpr : ∀ t' ∈ pr, segLocal t' = true :=
      fun t' ht' => hseg t' (by simp [ht'])
    cases t with
    | lit c =>
      cases s with
      | nil => simp
      | cons d sr =>
        simp only [tmatch, Bool.and_eq_true, beq_iff_eq] at hm
        obtain ⟨hcd, hm⟩ := hm
        have hc := hseg (GTok.lit c) (by simp)
        simp only [segLocal, bne_iff_ne, ne_eq, decide_eq_true_eq] at hc
        have hrest : '/' ∉ sr := ih sr hsegpr hm
        simp only [List.mem_cons]
        rintro (h' | h')
        · exact hc (hcd.trans h'.symm)
        · exact hrest h'
    | one =>
      cases s with
      | nil => simp
      | cons d sr =>
        simp only [tmatch, Bool.and_eq_true, bne_iff_ne, ne_eq] at hm
        obtain ⟨hd, hm⟩ := hm
        have hrest : '/' ∉ sr := ih sr hsegpr hm
        simp only [List.mem_cons]
        rintro (h' | h')
        · exact hd h'.symm
        · exact hrest h'
    | cls rs =>
      cases s with
      | nil => simp
      | cons d sr =>
        simp only [tmatch, Bool.and_eq_true] at hm
        obtain ⟨hd, hm⟩ := hm
        have hno := hseg (GTok.cls rs) (by simp)
        simp only [segLocal, Bool.not_eq_true'] at hno
        have hrest : '/' ∉ sr := ih sr hsegpr hm
        simp only [List.mem_cons]
        rintro (h' | h')
        · rw [← h'] at hd
          rw [hd] at hno
          exact absurd hno (by simp)
        · exact hrest h'
    | star =>
      simp only [tmatch, List.any_eq_true] at hm
      obtain ⟨u, hu, hmu⟩ := hm
      obtain ⟨pre, rfl, hno⟩ := segTails_suffix s u hu
      have hrest : '/' ∉ u := ih u hsegpr hmu
      simp only [List.mem_append]
      rintro (h' | h')
      · exact hno h'
      · exact hrest h'
    | anyrun =>
      have := hseg GTok.anyrun (by simp)
      simp [segLocal] at this
    | globstar =>
      have := hseg GTok.globstar (by simp)
      simp [segLocal] at this

/-- The position after a freshly prepended `dir/` prefix is reachable by
`**/`. -/
theorem mem_afterSlashSuffixes_append (pre s : List Char) :
    s ∈ afterSlashSuffixes (pre ++ '/' :: s) := by
  induction pre with
  | nil => simp [afterSlashSuffixes]
  | cons c pre' ih =>
    simp only [List.cons_append, afterSlashSuffixes]
    by_cases hc : c = '/'
    · rw [if_pos hc]
      exact List.mem_cons_of_mem _ ih
    · rw [if_neg hc]
      exact ih

/-- Positions reachable by `**/` stay reachable after prepending any
prefix. -/
theorem afterSlashSuffixes_mono (pre s : List Char) (t : List Char)
    (h : t ∈ afterSlashSuffixes s) : t ∈ afterSlashSuffixes (pre ++ s) := by
  induction pre with
  | nil => exact h
  | cons c pre' ih =>
    simp only [List.cons_append, afterSlashSuffixes]
    by_cases hc : c = '/'
    · rw [if_pos hc]
      exact List.mem_cons_of_mem _ ih
    · rw [if_neg hc]
      exact ih

/-- A leading `**/` can match zero directories: a pattern match lifts through a
leading `globstar`. -/
theorem tmatch_globstar_zero (pr : List GTok) (s : List Char)
    (h : tmatch pr s = true) : tmatch (.globstar :: pr) s = true := by
  simp [tmatch, h]

/-- A leading `**/` steps over one more directory segment. -/
theorem tmatch_globstar_step (pr : List GTok) (seg s : List Char)
    (h : tmatch (.globstar :: pr) s = true) :
    tmatch (.globstar :: pr) (seg ++ '/' :: s) = true := by
  simp only [tmatch, Bool.or_eq_true, List.any_eq_true] at h ⊢
  rcases h with h | ⟨u, hu, hmu⟩
  · exact Or.inr ⟨s, mem_afterSlashSuffixes_append seg s, h⟩
  · refine Or.inr ⟨u, ?_, hmu⟩
    have hu' : u ∈ afterSlashSuffixes ('/' :: s) := by
      simp only [afterSlashSuffixes, if_pos rfl]
      exact List.mem_cons_of_mem _ hu
    exact afterSlashSuffixes_mono seg _ u hu'

/-- A pattern starting with `**/` matches at any directory depth: whenever
the rest of the pattern matches a path, prefixing the path with any list
of directory segments still matches. -/
theorem tmatch_globstar_any_depth (pr : List GTok) (s : List Char)
    (dirs : List (List Char)) (h : tmatch pr s = true) :
    tmatch (.globstar :: pr)
      (dirs.foldr (fun seg acc => seg ++ '/' :: acc) s) = true := by
  induction dirs with
  | nil => exact tmatch_globstar_zero pr s h
  | cons seg rest ih =>
    simp only [List.foldr_cons]
    exact tmatch_globstar_step pr seg _ ih

/-! ### Further fold lemmas -/

/-- Override blocks none of which apply leave the rule mapping unchanged. -/
theorem foldOverrides_no_match (ov : List OverrideBlock)
    (acc : List (String × RuleSetting)) (fp : String)
    (h : ∀ b ∈ ov, blockApplies b fp = false) :
    ov.foldl
      (fun r b => if blockApplies b fp then mergeAssoc r b.rules else r)
      acc = acc := by
  induction ov generalizing acc with
  | nil => rfl
  | cons b rest ih =>
    have hb : blockApplies b fp = false := h b (by simp)
    rw [List.foldl_cons, if_neg (by simp [hb])]
    exact ih acc (fun b' hb' => h b' (by simp [hb']))

/-- Plugins already accumulated survive the remaining layers. -/
theorem mem_foldUnion_mono (more : List ConfigLayer) (acc : List String)
    (p : String) (h : p ∈ acc) :
    p ∈ more.foldl (fun ps l => unionPlugins ps l.plugins) acc := by
  induction more generalizing acc with
  | nil => exact h
  | cons l rest ih =>
    simp only [List.foldl_cons]
    exact ih _ ((mem_unionPlugins _ _ _).mpr (Or.inl h))

theorem foldLangOptions_globals (ls : List ConfigLayer) (lo : LangOptions) :
    (ls.foldl (fun lo l => mergeLangOptions lo l.languageOptions) lo).globals =
      ls.foldl (fun g l => mergeAssoc g l.languageOptions.globals)
        lo.globals := by
  induction ls generalizing lo with
  | nil => rfl
  | cons l rest ih => exact ih (mergeLangOptions lo l.languageOptions)

theorem foldLangOptions_entries (ls : List ConfigLayer) (lo : LangOptions) :
    (ls.foldl (fun lo l => mergeLangOptions lo l.languageOptions) lo).entries =
      ls.foldl (fun es l => mergeAssoc es l.languageOptions.entries)
        lo.entries := by
  induction ls generalizing lo with
  | nil => rfl
  | cons l rest ih => exact ih (mergeLangOptions lo l.languageOptions)

/-- The ignore fold resolves to the last matching pattern, with the
initial state only surviving when nothing matches. -/
theorem foldIgnore_eq (path : String) (patterns : List String) (acc : Bool) :
    patterns.foldl
      (fun a p =>
        if ignoreMatches (corePat p) path.data then !(isNegation p) else a)
      acc =
      (match patterns.reverse.find?
          (fun p => ignoreMatches (corePat p) path.data) with
       | some p => !(isNegation p)
       | none => acc) := by
  induction patterns using List.reverseRecOn generalizing acc with
  | nil => rfl
  | append_singleton ps p ih =>
    rw [List.foldl_append]
    simp only [List.foldl_cons, List.foldl_nil, List.reverse_append,
      List.reverse_singleton, List.singleton_append]
    by_cases hp : ignoreMatches (corePat p) path.data
    · rw [if_pos hp, List.find?_cons_of_pos _ (by simpa using hp)]
    · rw [if_neg hp, List.find?_cons_of_neg _ (by simpa using hp)]
      exact ih acc

/-- Characterization of the parser-conflict check: it fires exactly when
two layers declare different parser identifiers. -/
theorem hasParserConflict_iff (ls : List ConfigLayer) :
    hasParserConflict ls = true ↔
      ∃ l1 ∈ ls, ∃ l2 ∈ ls, ∃ p1 p2,
        l1.languageOptions.parser = some p1 ∧
        l2.languageOptions.parser = some p2 ∧ p1 ≠ p2 := by
  unfold hasParserConflict
  rw [List.any_eq_true]
  constructor
  · rintro ⟨l1, hl1, hb⟩
    rw [List.any_eq_true] at hb
    obtain ⟨l2, hl2, hb⟩ := hb
    cases hp1 : l1.languageOptions.parser with
    | none => rw [hp1] at hb; simp at hb
    | some p1 =>
      cases hp2 : l2.languageOptions.parser with
      | none => rw [hp1, hp2] at hb; simp at hb
      | some p2 =>
        rw [hp1, hp2] at hb
        simp only [bne_iff_ne, ne_eq] at hb
        exact ⟨l1, hl1, l2, hl2, p1, p2, hp1, hp2, hb⟩
  · rintro ⟨l1, hl1, l2, hl2, p1, p2, hp1, hp2, hne⟩
    refine ⟨l1, hl1, ?_⟩
    rw [List.any_eq_true]
    refine ⟨l2, hl2, ?_⟩
    rw [hp1, hp2]
    simpa using hne

/-! ### Claim theorems -/

/-- C1 (last-wins layering): for every rule identifier `R`, if an
earlier layer `A` sets `R` and a later layer `B` in the ordered layer list
sets `R` (and `B` is the last layer to mention `R`, no applicable override
touching it), then `compose` returns an `EffectiveConfig` whose entry for
`R` equals `B`'s setting — unconditional overwrite in layer order, for
every file path. -/
theorem last_wins (pre mid post : List ConfigLayer) (A B : ConfigLayer)
    (ov : List OverrideBlock) (fp R : String) (v1 v2 : RuleSetting)
    (hA : lastVal A.rules R = some v1)
    (hB : lastVal B.rules R = some v2)
    (hpost : ∀ l ∈ post, lookupKey l.rules R = none)
    (hov : ∀ b ∈ ov, blockApplies b fp = true → lookupKey b.rules R = none) :
    lookupKey (compose (pre ++ A :: (mid ++ B :: post)) ov fp).rules R =
      some v2 := by
  unfold compose
  rw [foldl_applyOverride_rules, foldl_applyLayer_rules,
    lookup_foldOverrides_absent _ _ _ _ hov]
  simp only [List.foldl_append, List.foldl_cons]
  rw [lookup_foldRules_absent _ _ _ hpost]
  exact lookupKey_mergeAssoc_lastVal _ _ _ _ hB

theorem last_wins_witness :
    lookupKey (compose [warnLayer, errorLayer] [] "foo.js").rules
      "no-shadow" = some (.plain .error) := by
  have h := last_wins [] [] [] warnLayer errorLayer [] "foo.js" "no-shadow"
    (.plain .warn) (.plain .error) rfl rfl (by simp) (by simp)
  simpa using h

/-- C2 (override gating): an override block whose pattern set contains
a glob matched by the file path contributes its rule settings after all
base layers, in listed order with the last applicable block winning; a
file path matching no block's patterns keeps the base layers' setting. -/
theorem override_gating :
    (∀ (ls : List ConfigLayer) (ovPre ovPost : List OverrideBlock)
        (b : OverrideBlock) (fp R G : String) (w : RuleSetting),
        G ∈ b.patterns → globMatch G fp = true →
        lastVal b.rules R = some w →
        (∀ b' ∈ ovPost, blockApplies b' fp = true →
          lookupKey b'.rules R = none) →
        lookupKey (compose ls (ovPre ++ b :: ovPost) fp).rules R = some w)
    ∧ (∀ (ls : List ConfigLayer) (ov : List OverrideBlock) (fp R : String),
        (∀ b ∈ ov, blockApplies b fp = false) →
        lookupKey (compose ls ov fp).rules R =
          lookupKey (compose ls [] fp).rules R) := by
  constructor
  · intro ls ovPre ovPost b fp R G w hG hmatch hw hpost
    have hb : blockApplies b fp = true := by
      unfold blockApplies
      rw [List.any_eq_true]
      exact ⟨G, hG, hmatch⟩
    unfold compose
    rw [foldl_applyOverride_rules]
    simp only [List.foldl_append, List.foldl_cons]
    rw [lookup_foldOverrides_absent _ _ _ _ hpost, if_pos hb]
    exact lookupKey_mergeAssoc_lastVal _ _ _ _ hw
  · intro ls ov fp R h
    unfold compose
    rw [foldl_applyOverride_rules, foldl_applyOverride_rules,
      foldOverrides_no_match _ _ _ h]
    rfl

theorem override_gating_witness :
    lookupKey (compose [warnLayer] [mjsOverride] "scripts/publish.mjs").rules
        "import/no-unresolved" = some (.plain .off)
    ∧ lookupKey (compose [warnLayer] [mjsOverride] "index.js").rules
        "no-shadow" =
      lookupKey (compose [warnLayer] [] "index.js").rules "no-shadow" := by
  constructor
  · have h := override_gating.1 [warnLayer] [] [] mjsOverride
      "scripts/publish.mjs" "import/no-unresolved" "**/*.mjs" (.plain .off)
      (by decide) (by decide) rfl (by simp)
    simpa using h
  · exact override_gating.2 [warnLayer] [mjsOverride] "index.js" "no-shadow"
      (by decide)

/-- C3 (ignore-list resolution with negation): a path is ignored iff
the last pattern in list order that matches it is not negation-prefixed;
with the repository's ignore list `["node_modules", "!.*.js"]`,
`node_modules/pkg/index.js` is ignored, `.foo.js` is not ignored, and
`node_modules/.bar.js` is re-included by the trailing `!.*.js`. -/
theorem ignore_negation_last_wins :
    (∀ (patterns : List String) (path : String),
      isIgnored patterns path =
        (match patterns.reverse.find?
            (fun p => ignoreMatches (corePat p) path.data) with
         | some p => !(isNegation p)
         | none => false))
    ∧ isIgnored repoIgnorePatterns "node_modules/pkg/index.js" = true
    ∧ isIgnored repoIgnorePatterns ".foo.js" = false
    ∧ isIgnored repoIgnorePatterns "node_modules/.bar.js" = false := by
  refine ⟨fun patterns path => foldIgnore_eq path patterns false,
    by decide, by decide, by decide⟩

/-- C4 (glob anchoring and depth): a pattern starting with `**/`
matches at any directory depth (`**/*.spec.*` matches
`a/b/c/foo.spec.ts`), while a pattern with no separator and no `**` is
evaluated relative to the composition root and matches only root-level
paths (`*.spec.*` does not match `a/foo.spec.ts`; `*config.*` matches a
root-level `vite.config.ts` but not `packages/vite.config.ts`). -/
theorem glob_anchoring_depth :
    (∀ (pr : List GTok) (s : List Char) (dirs : List (List Char)),
        tmatch pr s = true →
        tmatch (.globstar :: pr)
          (dirs.foldr (fun seg acc => seg ++ '/' :: acc) s) = true)
    ∧ (∀ (toks : List GTok) (s : List Char),
        (∀ t ∈ toks, segLocal t = true) → tmatch toks s = true → '/' ∉ s)
    ∧ globMatch "**/*.spec.*" "a/b/c/foo.spec.ts" = true
    ∧ globMatch "*.spec.*" "a/foo.spec.ts" = false
    ∧ globMatch "*config.*" "vite.config.ts" = true
    ∧ globMatch "*config.*" "packages/vite.config.ts" = false := by
  exact ⟨fun pr s dirs h => tmatch_globstar_any_depth pr s dirs h,
    tmatch_segLocal_no_slash, by decide, by decide, by decide, by decide⟩

theorem glob_anchoring_depth_witness :
    tmatch (.globstar :: parsePat "*.spec.*".data)
      ([['a'], ['b']].foldr (fun seg acc => seg ++ '/' :: acc)
        "foo.spec.ts".data) = true
    ∧ '/' ∉ "foo.spec.ts".data :=
  ⟨glob_anchoring_depth.1 (parsePat "*.spec.*".data) "foo.spec.ts".data
      [['a'], ['b']] (by decide),
   glob_anchoring_depth.2.1 (parsePat "*.spec.*".data) "foo.spec.ts".data
      (by decide) (by decide)⟩

/-- C5 (plugin accumulation is set union and idempotent): composing
two layers yields exactly the union of their plugin sets; composing the
same layer twice yields the same plugins as composing it once; redeclaring
a plugin under the same identifier is a no-op; and plugins are never
removed by later layers. -/
theorem plugin_union_idempotent :
    (∀ (l1 l2 : ConfigLayer) (ov : List OverrideBlock) (fp p : String),
        p ∈ (compose [l1, l2] ov fp).plugins ↔
          p ∈ l1.plugins ∨ p ∈ l2.plugins)
    ∧ (∀ (ls : List ConfigLayer) (l : ConfigLayer) (ov : List OverrideBlock)
        (fp : String),
        (compose (ls ++ [l, l]) ov fp).plugins =
          (compose (ls ++ [l]) ov fp).plugins)
    ∧ (∀ (ps : List String) (p : String), p ∈ ps → addPlugin ps p = ps)
    ∧ (∀ (ls more : List ConfigLayer) (ov : List OverrideBlock)
        (fp p : String),
        p ∈ (compose ls ov fp).plugins →
          p ∈ (compose (ls ++ more) ov fp).plugins) := by
  have hplug : ∀ (ls : List ConfigLayer) (ov : List OverrideBlock)
      (fp : String), (compose ls ov fp).plugins =
        ls.foldl (fun ps l => unionPlugins ps l.plugins) [] := by
    intro ls ov fp
    unfold compose
    rw [foldl_applyOverride_plugins, foldl_applyLayer_plugins]
    rfl
  refine ⟨?_, ?_, ?_, ?_⟩
  · intro l1 l2 ov fp p
    rw [hplug]
    simp only [List.foldl_cons, List.foldl_nil]
    rw [mem_unionPlugins, mem_unionPlugins]
    simp
  · intro ls l ov fp
    rw [hplug, hplug]
    simp only [List.foldl_append, List.foldl_cons, List.foldl_nil]
    apply unionPlugins_of_subset
    intro q hq
    exact (mem_unionPlugins _ _ _).mpr (Or.inr hq)
  · intro ps p hp
    unfold addPlugin
    rw [if_pos hp]
  · intro ls more ov fp p hp
    rw [hplug] at hp ⊢
    rw [List.foldl_append]
    exact mem_foldUnion_mono more _ p hp

theorem plugin_union_idempotent_witness :
    addPlugin ["import"] "import" = ["import"]
    ∧ "import" ∈ (compose [warnLayer, errorLayer] [] "a.js").plugins :=
  ⟨plugin_union_idempotent.2.2.1 ["import"] "import" (by decide),
   plugin_union_idempotent.2.2.2 [warnLayer] [errorLayer] [] "a.js" "import"
     (by decide)⟩

/-- C6 (shallow merge with a single additive exception): a top-level
`settings` or `languageOptions` key provided by a later layer replaces the
accumulated value wholesale (the effective value is exactly the later
layer's value, with no deep merge, and keys the later layer omits are kept
from earlier layers), except `languageOptions.globals`, which is unioned
key-by-key with later entries winning, so earlier layers' global names are
preserved unless overridden. -/
theorem shallow_merge_globals_union (ls : List ConfigLayer) (L : ConfigLayer)
    (ov : List OverrideBlock) (fp : String) :
    (∀ k v, lastVal L.settings k = some v →
      lookupKey (compose (ls ++ [L]) ov fp).settings k = some v)
    ∧ (∀ k, lookupKey L.settings k = none →
      lookupKey (compose (ls ++ [L]) ov fp).settings k =
        lookupKey (compose ls ov fp).settings k)
    ∧ (∀ k v, lastVal L.languageOptions.entries k = some v →
      lookupKey (compose (ls ++ [L]) ov fp).languageOptions.entries k =
        some v)
    ∧ (∀ k, lookupKey L.languageOptions.entries k = none →
      lookupKey (compose (ls ++ [L]) ov fp).languageOptions.entries k =
        lookupKey (compose ls ov fp).languageOptions.entries k)
    ∧ (∀ g b, lastVal L.languageOptions.globals g = some b →
      lookupKey (compose (ls ++ [L]) ov fp).languageOptions.globals g =
        some b)
    ∧ (∀ g, lookupKey L.languageOptions.globals g = none →
      lookupKey (compose (ls ++ [L]) ov fp).languageOptions.globals g =
        lookupKey (compose ls ov fp).languageOptions.globals g) := by
  have hsettings : ∀ (ls' : List ConfigLayer),
      (compose ls' ov fp).settings =
        ls'.foldl (fun s l => mergeAssoc s l.settings) [] := by
    intro ls'
    unfold compose
    rw [foldl_applyOverride_settings, foldl_applyLayer_settings]
    rfl
  have hglobals : ∀ (ls' : List ConfigLayer),
      (compose ls' ov fp).languageOptions.globals =
        ls'.foldl (fun g l => mergeAssoc g l.languageOptions.globals) [] := by
    intro ls'
    unfold compose
    rw [foldl_applyOverride_langOptions, foldl_applyLayer_langOptions,
      foldLangOptions_globals]
    rfl
  have hentries : ∀ (ls' : List ConfigLayer),
      (compose ls' ov fp).languageOptions.entries =
        ls'.foldl (fun es l => mergeAssoc es l.languageOptions.entries)
          [] := by
    intro ls'
    unfold compose
    rw [foldl_applyOverride_langOptions, foldl_applyLayer_langOptions,
      foldLangOptions_entries]
    rfl
  refine ⟨?_, ?_, ?_, ?_, ?_, ?_⟩
  · intro k v h
    rw [hsettings]
    simp only [List.foldl_append, List.foldl_cons, List.foldl_nil]
    exact lookupKey_mergeAssoc_lastVal _ _ _ _ h
  · intro k h
    rw [hsettings, hsettings]
    simp only [List.foldl_append, List.foldl_cons, List.foldl_nil]
    exact lookupKey_mergeAssoc_absent _ _ _ h
  · intro k v h
    rw [hentries]
    simp only [List.foldl_append, List.foldl_cons, List.foldl_nil]
    exact lookupKey_mergeAssoc_lastVal _ _ _ _ h
  · intro k h
    rw [hentries, hentries]
    simp only [List.foldl_append, List.foldl_cons, List.foldl_nil]
    exact lookupKey_mergeAssoc_absent _ _ _ h
  · intro g b h
    rw [hglobals]
    simp only [List.foldl_append, List.foldl_cons, List.foldl_nil]
    exact lookupKey_mergeAssoc_lastVal _ _ _ _ h
  · intro g h
    rw [hglobals, hglobals]
    simp only [List.foldl_append, List.foldl_cons, List.foldl_nil]
    exact lookupKey_mergeAssoc_absent _ _ _ h

theorem shallow_merge_globals_union_witness :
    lookupKey (compose [warnLayer, errorLayer] [] "a.ts").settings
        "import/resolver" = some (.map [("typescript", .map [])])
    ∧ lookupKey
        (compose [warnLayer, errorLayer] [] "a.ts").languageOptions.globals
        "console" = some true := by
  constructor
  · have h := (shallow_merge_globals_union [warnLayer] errorLayer []
      "a.ts").1 "import/resolver" (.map [("typescript", .map [])]) rfl
    simpa using h
  · have h := (shallow_merge_globals_union [warnLayer] errorLayer []
      "a.ts").2.2.2.2.2 "console" rfl
    have h2 : lookupKey
        (compose [warnLayer] [] "a.ts").languageOptions.globals "console" =
        some true := by decide
    rw [h2] at h
    simpa using h

/-- C7 (no invented defaults): a rule identifier absent from every
layer's rule mapping and from every applicable override block (one whose
patterns match the file path) has no entry in the composed
`EffectiveConfig.rules`. -/
theorem no_invented_defaults (ls : List ConfigLayer)
    (ov : List OverrideBlock) (fp R : String)
    (hls : ∀ l ∈ ls, lookupKey l.rules R = none)
    (hov : ∀ b ∈ ov, blockApplies b fp = true → lookupKey b.rules R = none) :
    lookupKey (compose ls ov fp).rules R = none := by
  unfold compose
  rw [foldl_applyOverride_rules, foldl_applyLayer_rules,
    lookup_foldOverrides_absent _ _ _ _ hov,
    lookup_foldRules_absent _ _ _ hls]
  rfl

theorem no_invented_defaults_witness :
    lookupKey (compose [warnLayer, errorLayer] [mjsOverride] "a.js").rules
      "import/no-unresolved" = none :=
  no_invented_defaults [warnLayer, errorLayer] [mjsOverride] "a.js"
    "import/no-unresolved"
    (by intro l hl
        simp only [List.mem_cons, List.not_mem_nil, or_false] at hl
        rcases hl with rfl | rfl <;> rfl)
    (by intro b hb hap
        simp only [List.mem_singleton] at hb
        subst hb
        exact absurd hap (by decide))

/-- C8 (determinism): `compose` is a pure function of its immutable
inputs — for every fixed triple `(layers, overrides, filePath)`,
structurally equal inputs yield structurally identical
`EffectiveConfig` values. -/
theorem compose_deterministic (ls ls' : List ConfigLayer)
    (ov ov' : List OverrideBlock) (fp fp' : String)
    (h1 : ls = ls') (h2 : ov = ov') (h3 : fp = fp') :
    compose ls ov fp = compose ls' ov' fp' := by
  subst h1
  subst h2
  subst h3
  rfl

theorem compose_deterministic_witness :
    compose [warnLayer] [mjsOverride] "a.mjs" =
      compose [warnLayer] [mjsOverride] "a.mjs" :=
  compose_deterministic [warnLayer] [warnLayer] [mjsOverride] [mjsOverride]
    "a.mjs" "a.mjs" rfl rfl rfl

/-- C9 (error behaviour): `composeE` fails, and fails with
`ConfigConflict`, exactly when the host requires single-parser enforcement
and two layers declare different parser identifiers; in every other case
it returns the full composed configuration (no partial result ever
escapes: the error branch carries no configuration). -/
theorem compose_error_behaviour :
    (∀ (e : Bool) (ls : List ConfigLayer) (ov : List OverrideBlock)
        (fp : String),
        (∃ err, composeE e ls ov fp = .error err) ↔
          (e = true ∧ ∃ l1 ∈ ls, ∃ l2 ∈ ls, ∃ p1 p2,
            l1.languageOptions.parser = some p1 ∧
            l2.languageOptions.parser = some p2 ∧ p1 ≠ p2))
    ∧ (∀ (e : Bool) (ls : List ConfigLayer) (ov : List OverrideBlock)
        (fp : String) (err : ComposeError),
        composeE e ls ov fp = .error err → err = .configConflict)
    ∧ (∀ (e : Bool) (ls : List ConfigLayer) (ov : List OverrideBlock)
        (fp : String),
        (∀ err, composeE e ls ov fp ≠ .error err) →
        composeE e ls ov fp = .ok (compose ls ov fp)) := by
  refine ⟨?_, ?_, ?_⟩
  · intro e ls ov fp
    unfold composeE
    by_cases h : e && hasParserConflict ls
    · rw [if_pos h]
      rw [Bool.and_eq_true] at h
      constructor
      · intro _
        exact ⟨h.1, (hasParserConflict_iff ls).mp h.2⟩
      · intro _
        exact ⟨.configConflict, rfl⟩
    · rw [if_neg h]
      constructor
      · rintro ⟨err, herr⟩
        exact absurd herr (by simp)
      · rintro ⟨he, hconf⟩
        exact absurd (by rw [he, (hasParserConflict_iff ls).mpr hconf]; rfl) h
  · intro e ls ov fp err h
    unfold composeE at h
    by_cases hc : e && hasParserConflict ls
    · rw [if_pos hc] at h
    · rw [if_neg hc] at h
  · intro e ls ov fp h
    unfold composeE at h ⊢
    by_cases hc : e && hasParserConflict ls
    · rw [if_pos hc] at h
      exact absurd rfl (h .configConflict)
    · rw [if_neg hc]

theorem compose_error_behaviour_witness :
    composeE false [warnLayer, errorLayer] [] "a.ts" =
      .ok (compose [warnLayer, errorLayer] [] "a.ts") :=
  compose_error_behaviour.2.2 false [warnLayer, errorLayer] [] "a.ts"
    (by intro err h
        simp [composeE] at h)

/-- Helper for the supersession claim: once the layer's own table binds
the base rule to `off` (as its last binding) and binds the counterpart,
the composed table `{...base.rules, <own>}` keeps exactly those values,
whatever the external base table holds. -/
theorem supersession_pair (baseRules : List (String × RuleSetting))
    (bId cId : String) {v : RuleSetting}
    (hb : lastVal (tsOwnSupersessionRules baseRules) bId =
      some (.plain .off))
    (hc : lastVal (tsOwnSupersessionRules baseRules) cId = some v) :
    lookupKey (tsLayerRules baseRules) bId = some (.plain .off)
    ∧ (∃ w, lookupKey (tsLayerRules baseRules) cId = some w ∧
        lookupKey (tsLayerRules baseRules) cId =
          lastVal (tsOwnSupersessionRules baseRules) cId)
    ∧ (∀ s, lookupKey (tsLayerRules baseRules) bId = some s →
        s.enabled = false) := by
  have hbase : lookupKey (tsLayerRules baseRules) bId =
      some (.plain .off) :=
    lookupKey_mergeAssoc_lastVal _ _ _ _ hb
  have hcp : lookupKey (tsLayerRules baseRules) cId = some v :=
    lookupKey_mergeAssoc_lastVal _ _ _ _ hc
  refine ⟨hbase, ⟨v, hcp, hcp.trans hc.symm⟩, ?_⟩
  intro s hs
  rw [hbase, Option.some.injEq] at hs
  rw [← hs]
  rfl

/-- C10 (implicit invariant of the TypeScript layer): for every base
ESLint rule that `packages/eslint-config-typescript/index.mjs` supersedes
with a `@typescript-eslint` counterpart, the composed rule table
`{...base.rules, <own entries>}` binds the base rule to `off` while the
counterpart is bound to the (often base-derived) setting of the layer's
own table, so — whatever the external base table holds — the base rule and
its counterpart are never simultaneously enabled. -/
theorem ts_supersession (baseRules : List (String × RuleSetting)) :
    ∀ p ∈ supersededPairs,
      lookupKey (tsLayerRules baseRules) p.1 = some (.plain .off)
      ∧ (∃ w, lookupKey (tsLayerRules baseRules) p.2 = some w ∧
          lookupKey (tsLayerRules baseRules) p.2 =
            lastVal (tsOwnSupersessionRules baseRules) p.2)
      ∧ (∀ s, lookupKey (tsLayerRules baseRules) p.1 = some s →
          s.enabled = false) := by
  intro p hp
  fin_cases hp <;> exact supersession_pair baseRules _ _ rfl rfl

theorem ts_supersession_witness :
    lookupKey (tsLayerRules []) "no-shadow" = some (.plain .off) :=
  (ts_supersession [] ("no-shadow", "@typescript-eslint/no-shadow")
    (by decide)).1

end Configs
